import Mathlib

/-!
Verification of the argument-classification pipeline of `slack_utils.py`.

The source module classifies raw string tokens with five matchers
(`parse_channel`, `parse_user`, `parse_email`, `parse_command`, `parse_int`)
applied in that order inside `parse_arguments`, the last matching one winning,
and exposes small event projections such as `get_reaction_sum`.

The three matchers built on `re.search` are embedded through a small
backtracking regular-expression engine that mirrors the Python `re` semantics
needed for the three concrete patterns that occur in the source:
leftmost match position, first alternative tried first, greedy one-or-more
character classes with backtracking, named groups returning the last capture
and `None` for a group that did not participate.
-/

namespace SlackUtils

/-- The `ArgumentType` enum of `slack_utils.py`. -/
inductive ArgumentType where
  | CHANNEL
  | USER
  | EMAIL
  | STRING
  | COMMAND
  | INT
deriving DecidableEq, Repr

/-- A Python value as produced by the matchers: a string, an integer,
or `None` (the value of a named group that did not participate). -/
inductive Val where
  | str : String → Val
  | int : Int → Val
  | none : Val
deriving DecidableEq, Repr

/-! ## A tiny regex engine for the patterns in the source

The three patterns of the source,
`<#(?P<id>[^|]+)|(?P<name>[^>])>`, `<@(?P<id>[^>]+)>` and
`<mailto:(?P<email>[^|]+).+>`, use only literals, single characters of a
class, one-or-more of a class, concatenation and alternation, so the engine
supports exactly those constructs. -/

/-- Regex syntax: literal character sequence, a single character of a class
(optionally captured into a named group), one or more characters of a class
(greedy, optionally captured), concatenation, alternation. -/
inductive RE where
  | lit : List Char → RE
  | cls : (Char → Bool) → Option String → RE
  | plus : (Char → Bool) → Option String → RE
  | seq : RE → RE → RE
  | alt : RE → RE → RE

/-- Captures: association list from group name to captured characters,
most recent first (Python `group` returns the last capture). -/
abbrev Caps := List (String × List Char)

/-- Record a capture for an optionally named group. -/
def addCap : Option String → List Char → Caps → Caps
  | Option.none, _, caps => caps
  | some g, v, caps => (g, v) :: caps

/-- Match a literal character sequence at the head of the input, returning
the rest of the input on success. -/
def litMatch : List Char → List Char → Option (List Char)
  | [], cs => some cs
  | _ :: _, [] => Option.none
  | p :: ps, c :: cs => if p = c then litMatch ps cs else Option.none

/-- Backtracking for a greedy one-or-more class: `run` is the maximal run of
class characters, `rest` the input after it.  Try consuming `n` characters,
then `n - 1`, ..., down to `1` (greedy: longest first), feeding each attempt
to the continuation `k`. -/
def tryLens (run rest : List Char) (g : Option String) (caps : Caps)
    (k : Caps → List Char → Option Caps) : Nat → Option Caps
  | 0 => Option.none
  | Nat.succ n =>
    match k (addCap g (run.take (n + 1)) caps) (run.drop (n + 1) ++ rest) with
    | some r => some r
    | Option.none => tryLens run rest g caps k n

/-- Match a regex at the start of the input in continuation-passing style.
The continuation receives the captures so far and the remaining input.
Alternation tries the left branch first; `plus` is greedy with
backtracking — exactly the Python `re` behaviour for these constructs. -/
def reMatch : RE → List Char → Caps → (Caps → List Char → Option Caps) → Option Caps
  | .lit ps, cs, caps, k =>
    match litMatch ps cs with
    | some rest => k caps rest
    | Option.none => Option.none
  | .cls p g, cs, caps, k =>
    match cs with
    | [] => Option.none
    | c :: rest => if p c then k (addCap g [c] caps) rest else Option.none
  | .plus p g, cs, caps, k =>
    let run := cs.takeWhile p
    tryLens run (cs.dropWhile p) g caps k run.length
  | .seq a b, cs, caps, k =>
    reMatch a cs caps (fun caps2 cs2 => reMatch b cs2 caps2 k)
  | .alt a b, cs, caps, k =>
    match reMatch a cs caps k with
    | some r => some r
    | Option.none => reMatch b cs caps k

/-- `re.search`: try to match at each position from the left; the first
position with a match wins.  Returns the captures of that match. -/
def reSearch (r : RE) : List Char → Option Caps
  | [] => reMatch r [] [] (fun caps _ => some caps)
  | c :: rest =>
    match reMatch r (c :: rest) [] (fun caps _ => some caps) with
    | some caps => some caps
    | Option.none => reSearch r rest

/-- `match.group(g)` as a `Val`: the captured string, or `None` when the
group did not participate in the match. -/
def groupVal (caps : Caps) (g : String) : Val :=
  match caps.lookup g with
  | some v => Val.str (String.mk v)
  | Option.none => Val.none

/-- The pattern `<#(?P<id>[^|]+)|(?P<name>[^>])>` of `parse_channel`:
alternation binds loosest, so the left alternative is `<#(?P<id>[^|]+)`
and the right alternative is `(?P<name>[^>])>`. -/
def channelRE : RE :=
  .alt (.seq (.lit ['<', '#']) (.plus (fun c => c != '|') (some "id")))
       (.seq (.cls (fun c => c != '>') (some "name")) (.lit ['>']))

/-- The pattern `<@(?P<id>[^>]+)>` of `parse_user`. -/
def userRE : RE :=
  .seq (.lit ['<', '@'])
       (.seq (.plus (fun c => c != '>') (some "id")) (.lit ['>']))

/-- The pattern `<mailto:(?P<email>[^|]+).+>` of `parse_email`;
`.` matches any character except a newline. -/
def emailRE : RE :=
  .seq (.lit ['<', 'm', 'a', 'i', 'l', 't', 'o', ':'])
       (.seq (.plus (fun c => c != '|') (some "email"))
             (.seq (.plus (fun c => c != '\n') Option.none) (.lit ['>'])))

/-! ## The five matchers

Each mirrors the Python function of the same name; Python's
`(result, matched)` convention becomes an `Option`. -/

/-- `parse_channel`: `re.search` with `channelRE`; on a match the value is
`match.group('id')`, which is `None` when the second alternative matched. -/
def parse_channel (input_string : String) : Option (ArgumentType × Val) :=
  match reSearch channelRE input_string.data with
  | some caps => some (ArgumentType.CHANNEL, groupVal caps "id")
  | Option.none => Option.none

/-- `parse_user`: `re.search` with `userRE`. -/
def parse_user (input_string : String) : Option (ArgumentType × Val) :=
  match reSearch userRE input_string.data with
  | some caps => some (ArgumentType.USER, groupVal caps "id")
  | Option.none => Option.none

/-- `parse_email`: `re.search` with `emailRE`. -/
def parse_email (input_string : String) : Option (ArgumentType × Val) :=
  match reSearch emailRE input_string.data with
  | some caps => some (ArgumentType.EMAIL, groupVal caps "email")
  | Option.none => Option.none

/-- Modelled from the spec: the `commands` module (the
VoteableCommandRegistry) is not under `src/`; the spec describes it as an
external read-only mapping from command name to command metadata, where the
metadata may or may not contain a `"key"` field.  We model an entry by the
list of its metadata field names. -/
abbrev Registry := List (String × List String)

/-- `input_string in commands.COMMANDS` together with dictionary access:
look up the token in the registry. -/
def lookupCmd (reg : Registry) (s : String) : Option (List String) :=
  reg.lookup s

/-- `parse_command`: the token must be a key of the registry and its entry
must contain a `"key"` field; the value is the token itself. -/
def parse_command (reg : Registry) (input_string : String) :
    Option (ArgumentType × Val) :=
  match lookupCmd reg input_string with
  | some fields =>
    if "key" ∈ fields then some (ArgumentType.COMMAND, Val.str input_string)
    else Option.none
  | Option.none => Option.none

/-! ## Python `int()` on strings

`int(s)` strips leading and trailing whitespace, accepts one optional sign,
then a nonempty run of decimal digits in which single underscores may appear
between digits.  (Unicode decimal digits and Unicode spaces, which CPython
also accepts, are not modelled; no claim depends on them.) -/

/-- The ASCII whitespace characters stripped by Python `int()`. -/
def pyIsSpace (c : Char) : Bool :=
  c = ' ' || c = '\t' || c = '\n' || c = '\x0d' || c = '\x0b' || c = '\x0c'

/-- Strip leading and trailing whitespace. -/
def pyStrip (cs : List Char) : List Char :=
  ((cs.dropWhile pyIsSpace).reverse.dropWhile pyIsSpace).reverse

/-- Digits after the first one: a digit continues, an underscore must be
followed by a digit (`5_0` is accepted, `5__0` and `5_` are not). -/
def pyDigitsAux (acc : Nat) : List Char → Option Nat
  | [] => some acc
  | c :: cs =>
    if c = '_' then
      match cs with
      | [] => Option.none
      | d :: ds =>
        if d.isDigit then pyDigitsAux (acc * 10 + (d.toNat - 48)) ds else Option.none
    else if c.isDigit then pyDigitsAux (acc * 10 + (c.toNat - 48)) cs
    else Option.none

/-- A nonempty digit run with single underscores between digits. -/
def pyDigits : List Char → Option Nat
  | [] => Option.none
  | c :: cs => if c.isDigit then pyDigitsAux (c.toNat - 48) cs else Option.none

/-- Python `int(s)` for base 10, returning `none` where Python raises
`ValueError`. -/
def pyInt (s : String) : Option Int :=
  match pyStrip s.data with
  | '+' :: rest =>
    match pyDigits rest with
    | some n => some (n : Int)
    | Option.none => Option.none
  | '-' :: rest =>
    match pyDigits rest with
    | some n => some (-(n : Int))
    | Option.none => Option.none
  | rest =>
    match pyDigits rest with
    | some n => some (n : Int)
    | Option.none => Option.none

/-- `parse_int`: `int(input_string)`, with `ValueError` as a no-match. -/
def parse_int (input_string : String) : Option (ArgumentType × Val) :=
  match pyInt input_string with
  | some n => some (ArgumentType.INT, Val.int n)
  | Option.none => Option.none

/-! ## The classifier -/

/-- The fixed trial order of `parse_arguments`:
`[parse_channel, parse_user, parse_email, parse_command, parse_int]`. -/
def parsers (reg : Registry) : List (String → Option (ArgumentType × Val)) :=
  [parse_channel, parse_user, parse_email, parse_command reg, parse_int]

/-- The inner loop of `parse_arguments` for one token: start from the
`String` default and let every matching parser overwrite the result, so the
last matching parser wins. -/
def classifyOne (reg : Registry) (arg : String) : ArgumentType × Val :=
  (parsers reg).foldl
    (fun acc parse =>
      match parse arg with
      | some res => res
      | Option.none => acc)
    (ArgumentType.STRING, Val.str arg)

/-- `parse_arguments`: classify each token, appending its type and value to
the two output lists. -/
def parse_arguments (reg : Registry) (args : List String) :
    List ArgumentType × List Val :=
  args.foldl
    (fun acc arg =>
      let r := classifyOne reg arg
      (acc.1 ++ [r.1], acc.2 ++ [r.2]))
    ([], [])

/-! ## Events and reactions -/

/-- One entry of a message's `reactions` list. -/
structure Reaction where
  name : String
  count : Int
deriving DecidableEq, Repr

/-- The part of a message payload read by `get_reaction_sum`. -/
structure Message where
  reactions : List Reaction
deriving DecidableEq, Repr

/-- The part of an event payload read by `get_reaction_sum`. -/
structure Event where
  message : Message
deriving DecidableEq, Repr

/-- `get_reaction_sum`: accumulate the counts of `+1` and `-1` reactions
with two independent `if`s, then return their difference. -/
def get_reaction_sum (event : Event) : Int :=
  let counts := event.message.reactions.foldl
    (fun (acc : Int × Int) reaction =>
      let acc1 := if reaction.name = "+1" then (acc.1 + reaction.count, acc.2) else acc
      if reaction.name = "-1" then (acc1.1, acc1.2 + reaction.count) else acc1)
    (0, 0)
  counts.1 - counts.2

/-! ## Spec-side definitions

These follow the words of the specification (not the source); the theorems
below compare the source embedding against them. -/

/-- Follows the spec's words: "apply five matchers in this fixed priority
order ... taking the result of the last matcher that matches", with the
`String` fallback.  Written as first-match over the reversed trial order. -/
def lastMatchSpec (reg : Registry) (arg : String) : ArgumentType × Val :=
  match parse_int arg with
  | some r => r
  | Option.none =>
    match parse_command reg arg with
    | some r => r
    | Option.none =>
      match parse_email arg with
      | some r => r
      | Option.none =>
        match parse_user arg with
        | some r => r
        | Option.none =>
          match parse_channel arg with
          | some r => r
          | Option.none => (ArgumentType.STRING, Val.str arg)

/-- Follows the claim's words for the integer matcher: a nonempty run of
ASCII decimal digits and nothing else. -/
def decDigitsAux (acc : Nat) : List Char → Option Nat
  | [] => some acc
  | c :: cs =>
    if c.isDigit then decDigitsAux (acc * 10 + (c.toNat - 48)) cs else Option.none

/-- Follows the claim's words: a nonempty all-digit run. -/
def decDigits : List Char → Option Nat
  | [] => Option.none
  | c :: cs => if c.isDigit then decDigitsAux (c.toNat - 48) cs else Option.none

/-- Follows the claim's words: "the whole token parses as a base-10 signed
integer with no extraneous characters (whole-string parse)" — an optional
single sign followed by digits, covering the entire token. -/
def strictSignedDecimal (s : String) : Option Int :=
  match s.data with
  | '+' :: rest =>
    match decDigits rest with
    | some n => some (n : Int)
    | Option.none => Option.none
  | '-' :: rest =>
    match decDigits rest with
    | some n => some (-(n : Int))
    | Option.none => Option.none
  | rest =>
    match decDigits rest with
    | some n => some (n : Int)
    | Option.none => Option.none

/-- Follows the spec's words for `get_reaction_sum`: the total count of
reactions with a given name. -/
def reactionTotal (nm : String) (rs : List Reaction) : Int :=
  ((rs.filter (fun r => r.name == nm)).map (fun r => r.count)).sum

/-! ## Helper lemmas -/

theorem litMatch_self_append (ps rest : List Char) :
    litMatch ps (ps ++ rest) = some rest := by
  induction ps with
  | nil => rfl
  | cons p ps ih => simp [litMatch, ih]

theorem takeWhileAll (p : Char → Bool) (l : List Char) (h : ∀ c ∈ l, p c = true) :
    l.takeWhile p = l := by
  induction l with
  | nil => rfl
  | cons c l ih =>
    simp only [List.takeWhile_cons, h c (by simp)]
    simp [ih (fun x hx => h x (by simp [hx]))]

theorem dropWhileAll (p : Char → Bool) (l : List Char) (h : ∀ c ∈ l, p c = true) :
    l.dropWhile p = [] := by
  induction l with
  | nil => rfl
  | cons c l ih =>
    simp only [List.dropWhile_cons, h c (by simp)]
    simp [ih (fun x hx => h x (by simp [hx]))]

theorem takeWhileStop (p : Char → Bool) (l : List Char) (c : Char) (l2 : List Char)
    (h : ∀ x ∈ l, p x = true) (hc : p c = false) :
    (l ++ c :: l2).takeWhile p = l := by
  induction l with
  | nil => simp [List.takeWhile_cons, hc]
  | cons x l ih =>
    simp only [List.cons_append, List.takeWhile_cons, h x (by simp)]
    simp [ih (fun y hy => h y (by simp [hy]))]

theorem dropWhileStop (p : Char → Bool) (l : List Char) (c : Char) (l2 : List Char)
    (h : ∀ x ∈ l, p x = true) (hc : p c = false) :
    (l ++ c :: l2).dropWhile p = c :: l2 := by
  induction l with
  | nil => simp [List.dropWhile_cons, hc]
  | cons x l ih =>
    simp only [List.cons_append, List.dropWhile_cons, h x (by simp)]
    simp [ih (fun y hy => h y (by simp [hy]))]

theorem tryLens_top (run rest : List Char) (g : String) (caps : Caps)
    (h : run ≠ []) :
    tryLens run rest (some g) caps (fun caps2 _ => some caps2) run.length =
      some ((g, run) :: caps) := by
  obtain ⟨c, t, rfl⟩ := List.exists_cons_of_ne_nil h
  simp [tryLens, addCap]

theorem reSearch_cons_of_match (r : RE) (c : Char) (cs : List Char) (caps : Caps)
    (h : reMatch r (c :: cs) [] (fun caps2 _ => some caps2) = some caps) :
    reSearch r (c :: cs) = some caps := by
  simp [reSearch, h]

theorem reSearch_lit_none (a : Char) (ps : List Char) (r : RE) (cs : List Char)
    (h : a ∉ cs) :
    reSearch (.seq (.lit (a :: ps)) r) cs = Option.none := by
  induction cs with
  | nil => simp [reSearch, reMatch, litMatch]
  | cons c cs ih =>
    have hac : a ≠ c := fun hc => h (by simp [hc])
    simp only [reSearch, reMatch, litMatch, if_neg hac]
    exact ih (fun hc => h (by simp [hc]))

theorem reSearch_lit2_none (a b c2 : Char) (ps : List Char) (r : RE) (cs : List Char)
    (hb : b ≠ c2) (h : a ∉ c2 :: cs) :
    reSearch (.seq (.lit (a :: b :: ps)) r) (a :: c2 :: cs) = Option.none := by
  simp only [reSearch, reMatch, litMatch, if_pos rfl, if_neg hb]
  exact reSearch_lit_none a (b :: ps) r (c2 :: cs) h

theorem reSearch_channel (tail : List Char)
    (h : tail.takeWhile (fun c => c != '|') ≠ []) :
    reSearch channelRE ('<' :: '#' :: tail) =
      some [("id", tail.takeWhile (fun c => c != '|'))] := by
  apply reSearch_cons_of_match
  simp only [channelRE, reMatch]
  have hlit : litMatch ['<', '#'] ('<' :: '#' :: tail) = some tail := by
    simp [litMatch]
  simp only [hlit, tryLens_top _ _ _ _ h]

theorem tryLens_step (run rest : List Char) (g : Option String) (caps : Caps)
    (k : Caps → List Char → Option Caps) (n : Nat) :
    tryLens run rest g caps k (n + 1) =
      match k (addCap g (run.take (n + 1)) caps) (run.drop (n + 1) ++ rest) with
      | some r => some r
      | Option.none => tryLens run rest g caps k n := rfl

/-- The suffix `.+>` of the email pattern, run on `l ++ ['>']` with `l`
nonempty and newline-free: the greedy `.+` first swallows the final `>` and
fails, then backs off one character and succeeds. -/
theorem email_tail_run (l : List Char) (caps : Caps) (hl : l ≠ [])
    (h : ∀ x ∈ l, (x != '\n') = true) :
    tryLens ((l ++ ['>']).takeWhile (fun c => c != '\n'))
      ((l ++ ['>']).dropWhile (fun c => c != '\n')) Option.none caps
      (fun caps2 cs2 =>
        match litMatch ['>'] cs2 with
        | some _ => some caps2
        | Option.none => Option.none)
      ((l ++ ['>']).takeWhile (fun c => c != '\n')).length = some caps := by
  have hall : ∀ x ∈ l ++ ['>'], (fun c => c != '\n') x = true := by
    intro x hx
    rcases List.mem_append.mp hx with hx | hx
    · exact h x hx
    · simp at hx; simp [hx]
  rw [takeWhileAll _ _ hall, dropWhileAll _ _ hall]
  obtain ⟨c, l2, rfl⟩ := List.exists_cons_of_ne_nil hl
  have hlen : ((c :: l2) ++ ['>']).length = (l2.length + 1) + 1 := by simp
  rw [hlen, tryLens_step]
  have htkF : ((c :: l2) ++ ['>']).take (l2.length + 1 + 1) = (c :: l2) ++ ['>'] := by
    rw [← hlen, List.take_length]
  have hdrF : ((c :: l2) ++ ['>']).drop (l2.length + 1 + 1) = [] := by
    rw [← hlen, List.drop_length]
  rw [htkF, hdrF]
  simp only [addCap, List.nil_append, litMatch]
  rw [tryLens_step]
  have htkL : ((c :: l2) ++ ['>']).take (l2.length + 1) = c :: l2 := by
    have := List.take_left (c :: l2) ['>']
    simpa using this
  have hdrL : ((c :: l2) ++ ['>']).drop (l2.length + 1) = ['>'] := by
    have := List.drop_left (c :: l2) ['>']
    simpa using this
  rw [htkL, hdrL]
  simp [addCap, litMatch]

theorem reSearch_email (el rl : List Char) (he : el ≠ [])
    (h1 : ∀ c ∈ el, (c != '|') = true) (h2 : ∀ c ∈ rl, (c != '\n') = true) :
    reSearch emailRE
      ('<' :: 'm' :: 'a' :: 'i' :: 'l' :: 't' :: 'o' :: ':' ::
        (el ++ '|' :: (rl ++ ['>']))) = some [("email", el)] := by
  apply reSearch_cons_of_match
  simp only [emailRE, reMatch]
  have hlit : litMatch ['<', 'm', 'a', 'i', 'l', 't', 'o', ':']
      ('<' :: 'm' :: 'a' :: 'i' :: 'l' :: 't' :: 'o' :: ':' ::
        (el ++ '|' :: (rl ++ ['>']))) = some (el ++ '|' :: (rl ++ ['>'])) := by
    simp [litMatch]
  simp only [hlit]
  have htake : (el ++ '|' :: (rl ++ ['>'])).takeWhile (fun c => c != '|') = el :=
    takeWhileStop _ _ _ _ h1 (by decide)
  have hdrop : (el ++ '|' :: (rl ++ ['>'])).dropWhile (fun c => c != '|') =
      '|' :: (rl ++ ['>']) :=
    dropWhileStop _ _ _ _ h1 (by decide)
  rw [htake, hdrop]
  obtain ⟨c, el2, rfl⟩ := List.exists_cons_of_ne_nil he
  rw [List.length_cons, tryLens_step]
  have htkE : (c :: el2).take (el2.length + 1) = c :: el2 := by
    have := List.take_length (c :: el2)
    simpa using this
  have hdrE : (c :: el2).drop (el2.length + 1) = [] := by
    have := List.drop_length (c :: el2)
    simpa using this
  rw [htkE, hdrE]
  simp only [addCap, List.nil_append]
  rw [show ('|' :: (rl ++ ['>'])) = ('|' :: rl) ++ ['>'] by simp]
  rw [email_tail_run ('|' :: rl) [("email", c :: el2)] (by simp)
    (by intro x hx
        rcases List.mem_cons.mp hx with hx | hx
        · simp [hx]
        · exact h2 x hx)]

/-- Dropping leading characters never uncovers a non-`p` last element:
`dropWhile` on `l ++ [c]` with `p c = false` keeps the final `c`. -/
theorem dropWhile_append_last (p : Char → Bool) (l : List Char) (c : Char)
    (hc : p c = false) :
    ∃ t, (l ++ [c]).dropWhile p = t ++ [c] := by
  induction l with
  | nil => exact ⟨[], by simp [List.dropWhile_cons, hc]⟩
  | cons x l ih =>
    by_cases hx : p x = true
    · obtain ⟨t, ht⟩ := ih
      exact ⟨t, by simp [List.dropWhile_cons, hx, ht]⟩
    · exact ⟨x :: l, by simp [List.dropWhile_cons, hx]⟩

/-- Stripping whitespace from a list whose head is not whitespace keeps
that head in place. -/
theorem pyStrip_head (c : Char) (l : List Char) (hc : pyIsSpace c = false) :
    ∃ t, pyStrip (c :: l) = c :: t := by
  unfold pyStrip
  rw [List.dropWhile_cons, hc]
  simp only [Bool.false_eq_true, if_false, List.reverse_cons]
  obtain ⟨t, ht⟩ := dropWhile_append_last pyIsSpace l.reverse c hc
  exact ⟨t.reverse, by rw [ht]; simp⟩

/-- A token starting with `<` is never an integer. -/
theorem pyInt_lt_none (s : String) (t : List Char) (h : s.data = '<' :: t) :
    pyInt s = Option.none := by
  obtain ⟨t2, ht2⟩ := pyStrip_head '<' t (by decide)
  unfold pyInt
  rw [h, ht2]
  simp [pyDigits]

theorem parse_arguments_foldl (reg : Registry) (args : List String)
    (t : List ArgumentType) (v : List Val) :
    args.foldl
      (fun acc arg =>
        let r := classifyOne reg arg
        (acc.1 ++ [r.1], acc.2 ++ [r.2])) (t, v) =
      (t ++ args.map (fun a => (classifyOne reg a).1),
       v ++ args.map (fun a => (classifyOne reg a).2)) := by
  induction args generalizing t v with
  | nil => simp
  | cons a args ih => simp [List.foldl_cons, ih]

theorem decDigitsAux_all (acc : Nat) (l : List Char) (n : Nat)
    (h : decDigitsAux acc l = some n) : ∀ c ∈ l, c.isDigit = true := by
  induction l generalizing acc with
  | nil => simp
  | cons c cs ih =>
    intro x hx
    rw [decDigitsAux] at h
    by_cases hc : c.isDigit = true
    · rcases List.mem_cons.mp hx with rfl | hx
      · exact hc
      · exact ih _ (by simpa [hc] using h) x hx
    · simp [hc] at h

theorem decDigits_all (l : List Char) (n : Nat) (h : decDigits l = some n) :
    ∀ c ∈ l, c.isDigit = true := by
  cases l with
  | nil => simp
  | cons c cs =>
    rw [decDigits] at h
    by_cases hc : c.isDigit = true
    · intro x hx
      rcases List.mem_cons.mp hx with rfl | hx
      · exact hc
      · exact decDigitsAux_all _ _ _ (by simpa [hc] using h) x hx
    · simp [hc] at h

theorem isDigit_ne_underscore (c : Char) (h : c.isDigit = true) : c ≠ '_' := by
  intro hc
  subst hc
  simp [Char.isDigit] at h

theorem isDigit_not_space (c : Char) (h : c.isDigit = true) : pyIsSpace c = false := by
  by_contra h2
  have h3 : pyIsSpace c = true := by
    cases hb : pyIsSpace c
    · exact absurd hb h2
    · rfl
  simp only [pyIsSpace, Bool.or_eq_true, decide_eq_true_eq] at h3
  rcases h3 with ((((rfl | rfl) | rfl) | rfl) | rfl) | rfl <;>
    simp [Char.isDigit] at h

theorem pyDigitsAux_of_dec (acc : Nat) (l : List Char) (h : ∀ c ∈ l, c.isDigit = true) :
    pyDigitsAux acc l = decDigitsAux acc l := by
  induction l generalizing acc with
  | nil => rfl
  | cons c cs ih =>
    have hc : c.isDigit = true := h c (by simp)
    rw [pyDigitsAux.eq_def, decDigitsAux.eq_def]
    simp only [if_neg (isDigit_ne_underscore c hc), hc, if_true]
    exact ih _ (fun x hx => h x (by simp [hx]))

theorem pyDigits_of_dec (l : List Char) (n : Nat) (h : decDigits l = some n) :
    pyDigits l = some n := by
  cases l with
  | nil => simp [decDigits] at h
  | cons c cs =>
    rw [decDigits] at h
    by_cases hc : c.isDigit = true
    · rw [pyDigits, if_pos hc,
        pyDigitsAux_of_dec _ _ (decDigitsAux_all _ _ n (by simpa [hc] using h))]
      simpa [hc] using h
    · simp [hc] at h

theorem dropWhileNone (p : Char → Bool) (l : List Char)
    (h : ∀ c ∈ l, p c = false) : l.dropWhile p = l := by
  cases l with
  | nil => rfl
  | cons c cs => simp [List.dropWhile_cons, h c (by simp)]

theorem pyStrip_noSpace (l : List Char) (h : ∀ c ∈ l, pyIsSpace c = false) :
    pyStrip l = l := by
  unfold pyStrip
  rw [dropWhileNone _ _ h, dropWhileNone _ _ (fun c hc => h c (by simpa using hc))]
  simp

/-- A strict signed-decimal literal is accepted by Python `int()` with the
same value. -/
theorem pyInt_of_strict (s : String) (n : Int)
    (h : strictSignedDecimal s = some n) : pyInt s = some n := by
  unfold strictSignedDecimal at h
  unfold pyInt
  split at h
  · rename_i rest heq
    split at h
    · rename_i m hm
      have hall := decDigits_all _ _ hm
      have hns : ∀ c ∈ s.data, pyIsSpace c = false := by
        rw [heq]
        intro x hx
        rcases List.mem_cons.mp hx with rfl | hx
        · rfl
        · exact isDigit_not_space x (hall x hx)
      rw [pyStrip_noSpace _ hns, heq]
      simp [pyDigits_of_dec _ _ hm, h]
    · exact absurd h (by simp)
  · rename_i rest heq
    split at h
    · rename_i m hm
      have hall := decDigits_all _ _ hm
      have hns : ∀ c ∈ s.data, pyIsSpace c = false := by
        rw [heq]
        intro x hx
        rcases List.mem_cons.mp hx with rfl | hx
        · rfl
        · exact isDigit_not_space x (hall x hx)
      rw [pyStrip_noSpace _ hns, heq]
      simp [pyDigits_of_dec _ _ hm, h]
    · exact absurd h (by simp)
  · rename_i hne1 hne2
    split at h
    · rename_i m hm
      have hall := decDigits_all _ _ hm
      have hns : ∀ c ∈ s.data, pyIsSpace c = false :=
        fun x hx => isDigit_not_space x (hall x hx)
      rw [pyStrip_noSpace _ hns]
      split
      · rename_i rest heq2
        have hd : ('+' : Char).isDigit = true := hall '+' (by simp [heq2])
        simp [Char.isDigit] at hd
      · rename_i rest heq2
        have hd : ('-' : Char).isDigit = true := hall '-' (by simp [heq2])
        simp [Char.isDigit] at hd
      · simp [pyDigits_of_dec _ _ hm, h]
    · exact absurd h (by simp)

theorem parse_arguments_eq_map (reg : Registry) (args : List String) :
    parse_arguments reg args =
      (args.map (fun a => (classifyOne reg a).1),
       args.map (fun a => (classifyOne reg a).2)) := by
  unfold parse_arguments
  rw [parse_arguments_foldl]
  simp

theorem get_reaction_sum_foldl (rs : List Reaction) (a b : Int) :
    rs.foldl
      (fun (acc : Int × Int) reaction =>
        let acc1 := if reaction.name = "+1" then (acc.1 + reaction.count, acc.2) else acc
        if reaction.name = "-1" then (acc1.1, acc1.2 + reaction.count) else acc1)
      (a, b) = (a + reactionTotal "+1" rs, b + reactionTotal "-1" rs) := by
  induction rs generalizing a b with
  | nil => simp [reactionTotal]
  | cons r rs ih =>
    simp only [List.foldl_cons]
    by_cases h1 : r.name = "+1"
    · have h2 : ¬ r.name = "-1" := by rw [h1]; decide
      simp only [h1, if_pos rfl, if_neg (by decide : ¬ ("+1" : String) = "-1")]
      rw [h1] at h2
      rw [ih]
      simp [reactionTotal, List.filter_cons, h1, h2, Int.add_assoc]
    · by_cases h2 : r.name = "-1"
      · simp only [if_neg h1, h2, if_pos rfl]
        rw [ih]
        simp [reactionTotal, List.filter_cons, h1, h2, Int.add_assoc]
      · simp only [if_neg h1, if_neg h2]
        rw [ih]
        simp [reactionTotal, List.filter_cons, h1, h2]

/-! ## The claims -/

/-- C1: for every token the classifier applies the five matchers in the
fixed order channel, user, email, command, integer, and the classification
is the result of the last matcher that matches; a token matching both the
command and the integer matcher is classified as Integer; a token matched
by no matcher is classified as String with the token itself as value. -/
theorem claim_c1_last_match_order (reg : Registry) (arg : String) :
    classifyOne reg arg = lastMatchSpec reg arg ∧
    (∀ s, parse_int arg = some s → s.1 = ArgumentType.INT) ∧
    (∀ r s, parse_command reg arg = some r → parse_int arg = some s →
      classifyOne reg arg = s) ∧
    (parse_channel arg = Option.none → parse_user arg = Option.none →
      parse_email arg = Option.none → parse_command reg arg = Option.none →
      parse_int arg = Option.none →
      classifyOne reg arg = (ArgumentType.STRING, Val.str arg)) := by
  have hmain : classifyOne reg arg = lastMatchSpec reg arg := rfl
  refine ⟨hmain, ?_, ?_, ?_⟩
  · intro s hs
    unfold parse_int at hs
    split at hs
    · rename_i n hn
      injection hs with hs
      rw [← hs]
    · exact absurd hs (by simp)
  · intro r s hr hs
    rw [hmain]
    unfold lastMatchSpec
    rw [hs]
  · intro h1 h2 h3 h4 h5
    rw [hmain]
    unfold lastMatchSpec
    rw [h5, h4, h3, h2, h1]

/-- Witness for C1 at the token `"5"` registered as a voteable command:
both the command and the integer matcher match, and the classification is
Integer 5. -/
theorem claim_c1_witness :
    classifyOne [("5", ["key"])] "5" = (ArgumentType.INT, Val.int 5) :=
  (claim_c1_last_match_order [("5", ["key"])] "5").2.2.1
    (ArgumentType.COMMAND, Val.str "5") (ArgumentType.INT, Val.int 5)
    (by decide) (by decide)

/-- C2: `parse_arguments` returns two sequences of exactly the input's
length, the i-th kind and value being the classification of the i-th
token. -/
theorem claim_c2_parallel_lists (reg : Registry) (args : List String) :
    (parse_arguments reg args).1.length = args.length ∧
    (parse_arguments reg args).2.length = args.length ∧
    ∀ i : Nat,
      ((parse_arguments reg args).1)[i]? =
        (args[i]?).map (fun a => (classifyOne reg a).1) ∧
      ((parse_arguments reg args).2)[i]? =
        (args[i]?).map (fun a => (classifyOne reg a).2) := by
  rw [parse_arguments_eq_map]
  refine ⟨by simp, by simp, fun i => ⟨?_, ?_⟩⟩ <;> simp [List.getElem?_map]

/-- C10: `get_reaction_sum` is the total count of `+1` reactions minus the
total count of `-1` reactions; other names do not affect the result. -/
theorem claim_c10_reaction_sum (event : Event) :
    get_reaction_sum event =
      reactionTotal "+1" event.message.reactions -
        reactionTotal "-1" event.message.reactions := by
  unfold get_reaction_sum
  rw [get_reaction_sum_foldl]
  simp

/-- C7: the command matcher matches iff the token is an exact registry key
whose entry contains a `"key"` field, the value being the token itself;
`"$rename"` classifies as Command with a `"key"` field and as String
without one. -/
theorem claim_c7_command_matcher (reg : Registry) (s : String) :
    ((parse_command reg s).isSome = true ↔
      ∃ fields, lookupCmd reg s = some fields ∧ "key" ∈ fields) ∧
    (∀ r, parse_command reg s = some r → r = (ArgumentType.COMMAND, Val.str s)) ∧
    parse_arguments [("$rename", ["key"])] ["$rename"] =
      ([ArgumentType.COMMAND], [Val.str "$rename"]) ∧
    parse_arguments [("$rename", ["other"])] ["$rename"] =
      ([ArgumentType.STRING], [Val.str "$rename"]) := by
  refine ⟨⟨?_, ?_⟩, ?_, by decide, by decide⟩
  · intro h
    unfold parse_command at h
    split at h
    · rename_i fields hf
      split at h
      · rename_i hk
        exact ⟨fields, hf, hk⟩
      · exact absurd h (by simp)
    · exact absurd h (by simp)
  · rintro ⟨fields, hf, hk⟩
    unfold parse_command
    rw [hf]
    simp [hk]
  · intro r hr
    unfold parse_command at hr
    split at hr
    · rename_i fields hf
      split at hr
      · injection hr with hr
        exact hr.symm
      · exact absurd hr (by simp)
    · exact absurd hr (by simp)

/-- Witness for C7: a registry entry with a `"key"` field makes the token
match. -/
theorem claim_c7_witness :
    (parse_command [("$rename", ["key"])] "$rename").isSome = true :=
  (claim_c7_command_matcher [("$rename", ["key"])] "$rename").1.mpr
    ⟨["key"], rfl, by decide⟩

/-- C8: all five matchers treat the empty string as a normal no-match and
the classifier degrades it to String; in the total-function embedding
every matcher terminates by construction. -/
theorem claim_c8_graceful_empty (reg : Registry)
    (hreg : lookupCmd reg "" = Option.none) :
    parse_channel "" = Option.none ∧ parse_user "" = Option.none ∧
    parse_email "" = Option.none ∧ parse_command reg "" = Option.none ∧
    parse_int "" = Option.none ∧
    parse_arguments reg [""] = ([ArgumentType.STRING], [Val.str ""]) := by
  have hcmd : parse_command reg "" = Option.none := by
    unfold parse_command
    rw [hreg]
  refine ⟨rfl, rfl, rfl, hcmd, rfl, ?_⟩
  rw [parse_arguments_eq_map]
  have hone : classifyOne reg "" = (ArgumentType.STRING, Val.str "") := by
    unfold classifyOne parsers
    simp only [List.foldl_cons, List.foldl_nil, hcmd]
    rfl
  simp [hone]

/-- Witness for C8 with the empty registry. -/
theorem claim_c8_witness :
    parse_arguments [] [""] = ([ArgumentType.STRING], [Val.str ""]) :=
  (claim_c8_graceful_empty [] rfl).2.2.2.2.2

/-- C9: the token `"x>"` contains no `<#` marker, yet the channel matcher
matches through the second regex alternative with no id captured, so the
classifier returns kind Channel with value None instead of String. -/
theorem claim_c9_spurious_channel (reg : Registry)
    (hreg : lookupCmd reg "x>" = Option.none) :
    ('#' ∉ "x>".data) ∧
    parse_channel "x>" = some (ArgumentType.CHANNEL, Val.none) ∧
    parse_arguments reg ["x>"] = ([ArgumentType.CHANNEL], [Val.none]) := by
  have hcmd : parse_command reg "x>" = Option.none := by
    unfold parse_command
    rw [hreg]
  refine ⟨by decide, rfl, ?_⟩
  rw [parse_arguments_eq_map]
  have hone : classifyOne reg "x>" = (ArgumentType.CHANNEL, Val.none) := by
    unfold classifyOne parsers
    simp only [List.foldl_cons, List.foldl_nil, hcmd]
    rfl
  simp [hone]

/-- Witness for C9 with the empty registry. -/
theorem claim_c9_witness :
    parse_arguments [] ["x>"] = ([ArgumentType.CHANNEL], [Val.none]) :=
  (claim_c9_spurious_channel [] rfl).2.2

/-- C3 counterexample: the email pattern `<mailto:(?P<email>[^|]+).+>` does
not require a `|`; the token `<mailto:someone@example.com>` IS matched, the
greedy group backtracking to `someone@example.co`. -/
theorem claim_c3_counterexample :
    parse_email "<mailto:someone@example.com>" =
      some (ArgumentType.EMAIL, Val.str "someone@example.co") := by
  decide

/-- C3 amended: on tokens of the shape `<mailto:<email>|<anything>>` the
matcher extracts the email between `mailto:` and `|` (no character is
required after the `|`), but the matcher also accepts tokens without any
`|`, such as `<mailto:ab>`. -/
theorem claim_c3_amended :
    (∀ (e r : String), e.data ≠ [] → (∀ c ∈ e.data, c ≠ '|') →
      (∀ c ∈ r.data, c ≠ '\n') →
      parse_email ("<mailto:" ++ e ++ "|" ++ r ++ ">") =
        some (ArgumentType.EMAIL, Val.str e)) ∧
    parse_email "<mailto:ab>" = some (ArgumentType.EMAIL, Val.str "a") := by
  constructor
  · intro e r he h1 h2
    unfold parse_email
    have l8 : "<mailto:".data = ['<', 'm', 'a', 'i', 'l', 't', 'o', ':'] := rfl
    have lp : "|".data = ['|'] := rfl
    have lg : ">".data = ['>'] := rfl
    have hdata : ("<mailto:" ++ e ++ "|" ++ r ++ ">").data =
        '<' :: 'm' :: 'a' :: 'i' :: 'l' :: 't' :: 'o' :: ':' ::
          (e.data ++ '|' :: (r.data ++ ['>'])) := by
      simp [String.data_append, l8, lp, lg]
    rw [hdata, reSearch_email e.data r.data he
      (fun c hc => by simp only [bne_iff_ne, ne_eq]; exact h1 c hc)
      (fun c hc => by simp only [bne_iff_ne, ne_eq]; exact h2 c hc)]
    rfl
  · decide

/-- Witness for C3 at the spec's own example token. -/
theorem claim_c3_witness :
    parse_email ("<mailto:" ++ "tsohlson@gmail.com" ++ "|" ++ "tsohlson@gmail.com" ++ ">") =
      some (ArgumentType.EMAIL, Val.str "tsohlson@gmail.com") :=
  claim_c3_amended.1 "tsohlson@gmail.com" "tsohlson@gmail.com"
    (by decide) (by decide) (by decide)

/-- C4 counterexample: for `<#C123X>` the channel matcher extracts
`"C123X>"` — the greedy `[^|]+` includes the terminating `>` — not the
text strictly between `<#` and the character before `>`. -/
theorem claim_c4_counterexample :
    parse_channel "<#C123X>" = some (ArgumentType.CHANNEL, Val.str "C123X>") ∧
    Val.str "C123X>" ≠ Val.str "C123X" ∧
    Val.str "C123X>" ≠ Val.str "C123" := by
  refine ⟨by decide, by decide, by decide⟩

/-- C4 amended: for tokens `<#` + id + `>` with a nonempty, `|`-free id,
the channel matcher matches via the first alternative and extracts the
whole run after `<#` including the terminating `>`. -/
theorem claim_c4_amended (id : String) (_hne : id.data ≠ [])
    (hp : ∀ c ∈ id.data, c ≠ '|') :
    parse_channel ("<#" ++ id ++ ">") =
      some (ArgumentType.CHANNEL, Val.str (id ++ ">")) := by
  unfold parse_channel
  have hdata : ("<#" ++ id ++ ">").data = '<' :: '#' :: (id.data ++ ['>']) := by
    have l2 : "<#".data = ['<', '#'] := rfl
    have lg : ">".data = ['>'] := rfl
    simp [String.data_append, l2, lg]
  have hall : ∀ x ∈ id.data ++ ['>'], (fun c => c != '|') x = true := by
    intro x hx
    rcases List.mem_append.mp hx with hx | hx
    · simp only [bne_iff_ne, ne_eq]
      exact hp x hx
    · simp at hx
      simp [hx]
  have htw : (id.data ++ ['>']).takeWhile (fun c => c != '|') = id.data ++ ['>'] :=
    takeWhileAll _ _ hall
  rw [hdata, reSearch_channel _ (by rw [htw]; simp)]
  rw [htw]
  have hmk : String.mk (id.data ++ ['>']) = id ++ ">" := by
    have hd : (id ++ ">").data = id.data ++ ['>'] := by
      simp [String.data_append]
    rw [← hd]
  simp [groupVal, hmk]

/-- Witness for C4 at the token `<#C123X>`. -/
theorem claim_c4_witness :
    parse_channel ("<#" ++ "C123X" ++ ">") =
      some (ArgumentType.CHANNEL, Val.str ("C123X" ++ ">")) :=
  claim_c4_amended "C123X" (by decide) (by decide)

/-- C5 counterexample: the token `<#C052EM50K|x<@U088EGWEL>` has the shape
`<#<id>|<name>>` with a nonempty `|`-free id, is not a registry key and is
not an integer, and the channel matcher does match it with id `C052EM50K`;
yet the classifier returns User `U088EGWEL`, because the name part contains
a user reference and `parse_user`, tried after `parse_channel`, overrides
it.  So not every such token classifies as Channel. -/
theorem claim_c5_counterexample :
    lookupCmd [] ("<#" ++ "C052EM50K" ++ "|" ++ "x<@U088EGWEL" ++ ">") =
      Option.none ∧
    parse_int ("<#" ++ "C052EM50K" ++ "|" ++ "x<@U088EGWEL" ++ ">") =
      Option.none ∧
    parse_channel ("<#" ++ "C052EM50K" ++ "|" ++ "x<@U088EGWEL" ++ ">") =
      some (ArgumentType.CHANNEL, Val.str "C052EM50K") ∧
    parse_arguments [] ["<#" ++ "C052EM50K" ++ "|" ++ "x<@U088EGWEL" ++ ">"] =
      ([ArgumentType.USER], [Val.str "U088EGWEL"]) ∧
    (ArgumentType.USER : ArgumentType) ≠ ArgumentType.CHANNEL := by
  refine ⟨rfl, by decide, by decide, by decide, by decide⟩

/-- C5 amended: a token `<#<id>|<name>>` with a nonempty id free of `|`,
where neither id nor name contains a `<` (so no later matcher can fire
inside the token), that is not a registry key, classifies as Channel with
the id as value; when the name part embeds a reference such as
`<@U088EGWEL>`, the later user matcher overrides the channel match. -/
theorem claim_c5_channel_pipe (reg : Registry) (id nm : String)
    (hne : id.data ≠ [])
    (hid : ∀ c ∈ id.data, c ≠ '|' ∧ c ≠ '<')
    (hname : ∀ c ∈ nm.data, c ≠ '<')
    (hreg : lookupCmd reg ("<#" ++ id ++ "|" ++ nm ++ ">") = Option.none) :
    classifyOne reg ("<#" ++ id ++ "|" ++ nm ++ ">") =
      (ArgumentType.CHANNEL, Val.str id) ∧
    parse_arguments reg ["<#" ++ id ++ "|" ++ nm ++ ">"] =
      ([ArgumentType.CHANNEL], [Val.str id]) := by
  have hdata : ("<#" ++ id ++ "|" ++ nm ++ ">").data =
      '<' :: '#' :: (id.data ++ '|' :: (nm.data ++ ['>'])) := by
    have l2 : "<#".data = ['<', '#'] := rfl
    have lp : "|".data = ['|'] := rfl
    have lg : ">".data = ['>'] := rfl
    simp [String.data_append, l2, lp, lg]
  have htw : (id.data ++ '|' :: (nm.data ++ ['>'])).takeWhile (fun c => c != '|') =
      id.data :=
    takeWhileStop _ _ _ _
      (fun x hx => by simp only [bne_iff_ne, ne_eq]; exact (hid x hx).1) (by decide)
  have hch : parse_channel ("<#" ++ id ++ "|" ++ nm ++ ">") =
      some (ArgumentType.CHANNEL, Val.str id) := by
    unfold parse_channel
    rw [hdata, reSearch_channel _ (by rw [htw]; exact hne)]
    rw [htw]
    rfl
  have hnotin : '<' ∉ '#' :: (id.data ++ '|' :: (nm.data ++ ['>'])) := by
    intro hmem
    rcases List.mem_cons.mp hmem with h | h
    · exact absurd h.symm (by decide)
    · rcases List.mem_append.mp h with h | h
      · exact (hid '<' h).2 rfl
      · rcases List.mem_cons.mp h with h | h
        · exact absurd h.symm (by decide)
        · rcases List.mem_append.mp h with h | h
          · exact hname '<' h rfl
          · simp at h
  have hus : parse_user ("<#" ++ id ++ "|" ++ nm ++ ">") = Option.none := by
    unfold parse_user
    rw [hdata]
    rw [show userRE = .seq (.lit ('<' :: '@' :: []))
      (.seq (.plus (fun c => c != '>') (some "id")) (.lit ['>'])) from rfl]
    rw [reSearch_lit2_none '<' '@' '#' [] _ _ (by decide) hnotin]
  have hem : parse_email ("<#" ++ id ++ "|" ++ nm ++ ">") = Option.none := by
    unfold parse_email
    rw [hdata]
    rw [show emailRE = .seq (.lit ('<' :: 'm' :: ['a', 'i', 'l', 't', 'o', ':']))
      (.seq (.plus (fun c => c != '|') (some "email"))
        (.seq (.plus (fun c => c != '\n') Option.none) (.lit ['>']))) from rfl]
    rw [reSearch_lit2_none '<' 'm' '#' _ _ _ (by decide) hnotin]
  have hint : parse_int ("<#" ++ id ++ "|" ++ nm ++ ">") = Option.none := by
    unfold parse_int
    rw [pyInt_lt_none _ _ hdata]
  have hcmd : parse_command reg ("<#" ++ id ++ "|" ++ nm ++ ">") = Option.none := by
    unfold parse_command
    rw [hreg]
  have hone : classifyOne reg ("<#" ++ id ++ "|" ++ nm ++ ">") =
      (ArgumentType.CHANNEL, Val.str id) := by
    unfold classifyOne parsers
    simp only [List.foldl_cons, List.foldl_nil, hch, hus, hem, hcmd, hint]
  refine ⟨hone, ?_⟩
  rw [parse_arguments_eq_map]
  simp [hone]

/-- Witness for the amended C5 at the spec's example `<#C052EM50K|waterloo>`
with the empty registry. -/
theorem claim_c5_witness :
    parse_arguments [] ["<#" ++ "C052EM50K" ++ "|" ++ "waterloo" ++ ">"] =
      ([ArgumentType.CHANNEL], [Val.str "C052EM50K"]) :=
  (claim_c5_channel_pipe [] "C052EM50K" "waterloo"
    (by decide) (by decide) (by decide) rfl).2

/-- C6 counterexample: Python `int()` strips surrounding whitespace, so
`" 5"` — which is not a strict signed decimal literal — is still matched
by the integer matcher. -/
theorem claim_c6_counterexample :
    strictSignedDecimal " 5" = Option.none ∧
    parse_int " 5" = some (ArgumentType.INT, Val.int 5) := by
  refine ⟨by decide, by decide⟩

/-- C6 amended: every strict whole-token signed decimal is matched with its
value, and partially-numeric strings still fail; but the matcher follows
Python `int()` exactly, which additionally tolerates surrounding whitespace
and single underscores between digits. -/
theorem claim_c6_amended :
    (∀ (s : String) (n : Int), strictSignedDecimal s = some n →
      parse_int s = some (ArgumentType.INT, Val.int n)) ∧
    parse_int "5abc" = Option.none ∧
    parse_int "5" = some (ArgumentType.INT, Val.int 5) ∧
    parse_int " 5" = some (ArgumentType.INT, Val.int 5) ∧
    parse_int "5_0" = some (ArgumentType.INT, Val.int 50) ∧
    (∀ reg : Registry,
      parse_arguments reg ["5"] = ([ArgumentType.INT], [Val.int 5])) ∧
    (∀ reg : Registry, lookupCmd reg "5abc" = Option.none →
      parse_arguments reg ["5abc"] = ([ArgumentType.STRING], [Val.str "5abc"])) := by
  refine ⟨?_, by decide, by decide, by decide, by decide, ?_, ?_⟩
  · intro s n h
    unfold parse_int
    rw [pyInt_of_strict s n h]
  · intro reg
    rw [parse_arguments_eq_map]
    have hone : classifyOne reg "5" = (ArgumentType.INT, Val.int 5) := by
      unfold classifyOne parsers
      simp only [List.foldl_cons, List.foldl_nil]
      cases h : parse_command reg "5" <;> rfl
    simp [hone]
  · intro reg hreg
    have hcmd : parse_command reg "5abc" = Option.none := by
      unfold parse_command
      rw [hreg]
    rw [parse_arguments_eq_map]
    have hone : classifyOne reg "5abc" = (ArgumentType.STRING, Val.str "5abc") := by
      unfold classifyOne parsers
      simp only [List.foldl_cons, List.foldl_nil, hcmd]
      rfl
    simp [hone]

/-- Witness for C6: a strict negative literal goes through `int()`. -/
theorem claim_c6_witness :
    strictSignedDecimal "-12" = some (-12) ∧
    parse_int "-12" = some (ArgumentType.INT, Val.int (-12)) :=
  ⟨by decide, claim_c6_amended.1 "-12" (-12) (by decide)⟩

end SlackUtils
